import Mathlib

/-!
Shallow embedding of the token-indexed document registry of this repository.

The repository has two variants of the same application:
* `src/server.js` (first document): local-filesystem storage; its upload
  handler always computes `expiresAt = createdAt + TTL` and stores *different*
  objects under `byFile` (carrying `token`) and `byToken` (carrying
  `filename`); its `listTokens` renders `Object.entries(meta.byToken)` without
  sorting; its whole metadata read-modify-write in the upload handler is
  synchronous (no `await` between `readMetadata()` and `writeMetadata(meta)`).
* `src/unnamed/part_000`: S3-backed; upload sets `expiresAt` to `null` when
  `TOKEN_TTL_DAYS <= 0`, stores identical entry objects in both indices,
  mirrors each entry to S3 under `tokens/<token>.json`, and `await`s S3 puts
  between the metadata read and the metadata writes.

JS objects used as string-keyed maps are modelled as association lists with
JS-assignment semantics (`aset` replaces in place, else appends); `delete`
is `aerase`.  Timestamps are integers (milliseconds).  A stored `expiresAt`
is `none` for JSON `null` and `some p` for a string whose `Date.parse`
outcome is `p` (`some t` when finite, `none` when `NaN`).
-/

namespace Sunat

/-- A stored document entry, as the upload handlers build it.  JS objects may
lack fields, hence the `Option`s: the local variant's `byFile` values carry a
`token` but no `filename`, its `byToken` values a `filename` but no `token`;
the S3 variant's entries carry both plus the S3 keys. -/
structure Entry where
  token : Option String := none
  filename : Option String := none
  originalName : String := ""
  size : Nat := 0
  mime : String := ""
  createdAt : Int := 0
  expiresAt : Option (Option Int) := none
  s3Bucket : Option String := none
  s3Key : Option String := none
  qrS3Key : Option String := none
deriving DecidableEq

/-- A JS object used as a map from strings to entries (`meta.byFile`,
`meta.byToken`, and the S3 `tokens/` mirror keyed by token). -/
abbrev Index := List (String × Entry)

/-- Property read `obj[k]`: first binding for `k`. -/
def alookup : Index → String → Option Entry
  | [], _ => none
  | p :: l, k => if p.1 = k then some p.2 else alookup l k

/-- The keys of an index, in `Object.entries` order. -/
def keys (l : Index) : List String := l.map Prod.fst

/-- Property write `obj[k] = v`: JS keeps the position of an existing key and
appends a fresh key at the end. -/
def aset (l : Index) (k : String) (v : Entry) : Index :=
  if k ∈ keys l then l.map (fun p => if p.1 = k then (k, v) else p)
  else l ++ [(k, v)]

/-- Property removal `delete obj[k]`. -/
def aerase (l : Index) (k : String) : Index := l.filter (fun p => p.1 ≠ k)

/-- The persisted metadata document: the two indices of `metadata.json`. -/
structure Metadata where
  byFile : Index := []
  byToken : Index := []
deriving DecidableEq

/-- State of the S3 variant: local metadata plus the per-token remote mirror
(`tokens/<token>.json` objects, keyed by token). -/
structure SysState where
  meta : Metadata := {}
  mirror : Index := []
deriving DecidableEq

/-- Outcome of reading and parsing `metadata.json`: the file may be absent
(`readFileSync` throws), unreadable as JSON (`JSON.parse` throws), or a parsed
document in which either index may be missing. -/
inductive RawMetadata where
  | absent
  | corrupt
  | doc (byFileField : Option Index) (byTokenField : Option Index)
deriving DecidableEq

/-- readMetadata: `try { parsed = JSON.parse(readFileSync(metadataPath)) ;
return { byFile: \x7b\x7d, byToken: \x7b\x7d, ...parsed } } catch { return
empty }` — absence and corruption both land in the catch; a parsed document
without one of the fields gets the empty default from the spread. -/
def readMetadata : RawMetadata → Metadata
  | .absent => {}
  | .corrupt => {}
  | .doc bf bt => { byFile := bf.getD [], byToken := bt.getD [] }

/-- One day in milliseconds: `24 * 60 * 60 * 1000`. -/
def dayMs : Int := 86400000

/-- The S3 variant's expiry computation (part_000 lines 245-248):
`ttlDays > 0 ? new Date(createdAt.getTime() + ttlDays*24*60*60*1000) : null`. -/
def computeExpiresAtS3 (ttlDays createdAt : Int) : Option Int :=
  if ttlDays > 0 then some (createdAt + ttlDays * dayMs) else none

/-- The local variant's expiry computation (server.js lines 184-186):
`new Date(createdAt.getTime() + TOKEN_TTL_DAYS*24*60*60*1000)` — no null
branch. -/
def computeExpiresAtLocal (ttlDays createdAt : Int) : Int :=
  createdAt + ttlDays * dayMs

/-- The entry object built by the S3 upload handler (part_000 lines 260-270);
a real timestamp stored as an ISO string parses back, so a non-null
`expiresAt` is modelled as `some (some t)`. -/
def mkEntryS3 (tok fn origName mimeTy bucket s3KeyArg : String) (sz : Nat)
    (ttlDays createdAt : Int) : Entry :=
  { token := some tok, filename := some fn, originalName := origName,
    size := sz, mime := mimeTy, createdAt := createdAt,
    expiresAt := (computeExpiresAtS3 ttlDays createdAt).map some,
    s3Bucket := some bucket, s3Key := some s3KeyArg, qrS3Key := none }

/-- `meta.byFile[fn] = e; meta.byToken[tok] = e` (part_000 stores the same
entry object, spread, under both indices). -/
def insertBoth (m : Metadata) (tok fn : String) (e : Entry) : Metadata :=
  { byFile := aset m.byFile fn e, byToken := aset m.byToken tok e }

/-- The S3 upload handler's two metadata states: after the first
`writeMetadata` (entry without QR key, line 274) and after the second
(entry updated with `qrS3Key`, line 291). -/
def createS3 (m : Metadata) (tok fn : String) (e : Entry) (qrKey : String) :
    Metadata × Metadata :=
  let m1 := insertBoth m tok fn e
  let m2 := insertBoth m1 tok fn { e with qrS3Key := some qrKey }
  (m1, m2)

/-- An upload request of the local variant. -/
structure UploadReq where
  tok : String
  fn : String
  origName : String
  sz : Nat
  mimeTy : String
deriving DecidableEq

/-- The object the local upload handler stores under `byFile[file.filename]`
(server.js lines 188-195): it records the token, not the filename. -/
def mkEntryLocalByFile (r : UploadReq) (ttlDays createdAt : Int) : Entry :=
  { token := some r.tok, originalName := r.origName, size := r.sz,
    mime := r.mimeTy, createdAt := createdAt,
    expiresAt := some (some (computeExpiresAtLocal ttlDays createdAt)) }

/-- The object the local upload handler stores under `byToken[token]`
(server.js lines 196-203): it records the filename, not the token. -/
def mkEntryLocalByToken (r : UploadReq) (ttlDays createdAt : Int) : Entry :=
  { filename := some r.fn, originalName := r.origName, size := r.sz,
    mime := r.mimeTy, createdAt := createdAt,
    expiresAt := some (some (computeExpiresAtLocal ttlDays createdAt)) }

/-- The local upload handler's metadata mutation (server.js lines 181-204):
read, insert the two (distinct) entry objects, write — all synchronous. -/
def createLocal (m : Metadata) (r : UploadReq) (ttlDays createdAt : Int) :
    Metadata :=
  { byFile := aset m.byFile r.fn (mkEntryLocalByFile r ttlDays createdAt),
    byToken := aset m.byToken r.tok (mkEntryLocalByToken r ttlDays createdAt) }

/-- Expiry test shared by `/view` and `purgeExpired`:
`Number.isFinite(Date.parse(e.expiresAt || "")) && now > exp` — the branch is
taken only when the parse is finite. -/
def isExpired (e : Entry) (now : Int) : Bool :=
  match e.expiresAt with
  | some (some t) => decide (t < now)
  | _ => false

/-- Result of resolving a token, as the `/view/:token` route distinguishes
them: 404 (invalid), 410 (expired, with the parsed expiry time rendered), or
the entry that is then served. -/
inductive ResolveResult where
  | notFound
  | expired (t : Int)
  | found (e : Entry)
deriving DecidableEq

/-- Entry lookup of the S3 variant's `/view/:token` (part_000 lines 321-325):
the `tokens/<token>.json` mirror first, the local `byToken` as fallback.  An
unconfigured or missing mirror object is `none` (`s3GetJson` returns null). -/
def lookupView (s : SysState) (tok : String) : Option Entry :=
  match alookup s.mirror tok with
  | some e => some e
  | none => alookup s.meta.byToken tok

/-- The `/view/:token` route (part_000 lines 319-354): 404 when neither the
mirror nor the local index has the token; 410 when the stored `expiresAt`
parses to a finite time strictly before `now`; otherwise the entry. -/
def resolveView (s : SysState) (tok : String) (now : Int) : ResolveResult :=
  match lookupView s tok with
  | none => .notFound
  | some e =>
    match e.expiresAt with
    | some (some t) => if t < now then .expired t else .found e
    | _ => .found e

/-- The metadata removal shared by both variants' `removeByToken` and by
`purgeExpired`: `delete meta.byToken[token]; delete meta.byFile[entry.filename]`.
An absent `filename` field indexes `byFile` at a key no entry uses, a no-op. -/
def removeMeta (m : Metadata) (e : Entry) (tok : String) : Metadata :=
  { byFile :=
      match e.filename with
      | some f => aerase m.byFile f
      | none => m.byFile,
    byToken := aerase m.byToken tok }

/-- The local variant's `removeByToken` (server.js lines 84-102): look up
`byToken`; absent means `{ ok: false }`; otherwise best-effort blob unlink
(outside the metadata), then removal from both indices and one write. -/
def removeByTokenLocal (m : Metadata) (tok : String) : Bool × Metadata :=
  match alookup m.byToken tok with
  | none => (false, m)
  | some e => (true, removeMeta m e tok)

/-- The S3 variant's `removeByToken` (part_000 lines 146-168): local
`byToken` first, then the mirror; on success it removes the entry from both
indices and deletes the mirror object `tokens/<token>.json`. -/
def removeByToken (s : SysState) (tok : String) : Bool × SysState :=
  let found :=
    match alookup s.meta.byToken tok with
    | some e => some e
    | none => alookup s.mirror tok
  match found with
  | none => (false, s)
  | some e =>
    (true, { meta := removeMeta s.meta e tok, mirror := aerase s.mirror tok })

/-- Body of the purge loop for one snapshot binding (server.js lines 317-326,
part_000 lines 441-453): when the entry's stored expiry parses finite and is
strictly before `now`, remove it from both in-memory indices and count it;
blob deletions are best-effort I/O outside the metadata. -/
def purgeStep (now : Int) (acc : Metadata × Nat) (p : String × Entry) :
    Metadata × Nat :=
  if isExpired p.2 now then
    (removeMeta acc.1 p.2 p.1, acc.2 + 1)
  else acc

/-- `purgeExpired` (server.js lines 313-329): iterate over the
`Object.entries(meta.byToken)` snapshot, mutate the in-memory document, and
call `writeMetadata` exactly once after the loop.  The third component is the
trace of `writeMetadata` calls the function performs. -/
def purgeExpired (m : Metadata) (now : Int) : Metadata × Nat × List Metadata :=
  let r := m.byToken.foldl (purgeStep now) (m, 0)
  (r.1, r.2, [r.1])

/-- The comparator of the S3 variant's listing sort, as a relation:
`(a, b) => Date.parse(b.createdAt) - Date.parse(a.createdAt)` sorts by
`createdAt` descending. -/
def entryGe (a b : Entry) : Prop := b.createdAt ≤ a.createdAt

instance : DecidableRel entryGe := fun a b =>
  inferInstanceAs (Decidable (b.createdAt ≤ a.createdAt))

instance : IsTotal Entry entryGe := ⟨fun a b => le_total b.createdAt a.createdAt⟩

instance : IsTrans Entry entryGe := ⟨fun _ _ _ h1 h2 => le_trans h2 h1⟩

/-- The merge of `listTokens` in the S3 variant (part_000 lines 380-388): a
`Map` seeded with the S3-listed entries keyed by token (later duplicates
overwrite in place), then the local `byToken` bindings that the map does not
already have, tagged with their token. -/
def mergeEntries (s3Entries : List Entry) (localBT : Index) : List Entry :=
  let m0 : Index := s3Entries.foldl (fun m e =>
    match e.token with
    | some t => aset m t e
    | none => m) []
  let m1 := localBT.foldl (fun m p =>
    if (alookup m p.1).isSome then m
    else m ++ [(p.1, { p.2 with token := some p.1 })]) m0
  m1.map Prod.snd

/-- The S3 variant's `listTokens` (part_000 lines 378-392): merge, then a
stable sort by `createdAt` descending (`Array.prototype.sort` is stable and a
stable sort is determined by comparator and input, so any stable sort models
it; `List.insertionSort` is stable). -/
def listTokensS3 (s3Entries : List Entry) (localBT : Index) : List Entry :=
  List.insertionSort entryGe (mergeEntries s3Entries localBT)

/-- The local variant's `listTokens` (server.js lines 268-310): it renders
`Object.entries(meta.byToken)` in index order, without any sort. -/
def listTokensLocal (m : Metadata) : List Entry := m.byToken.map Prod.snd

/-! ### Path handling of the local storage backend -/

/-- Split a character list at `/`. -/
def splitSegsAux : List Char → List Char → List (List Char)
  | [], cur => [cur.reverse]
  | c :: cs, cur =>
    if c = '/' then cur.reverse :: splitSegsAux cs []
    else splitSegsAux cs (c :: cur)

/-- The raw `/`-separated chunks of a path string. -/
def rawSegs (s : String) : List String := (splitSegsAux s.data []).map List.asString

/-- The non-empty segments of a path string. -/
def segs (s : String) : List String := (rawSegs s).filter (fun x => x ≠ "")

/-- Normalisation of an absolute path's segments, as `path.join` performs it:
`.` disappears, `..` pops the previous segment (and is dropped at the root). -/
def normSegs (l : List String) : List String :=
  l.foldl (fun acc s =>
    if s = "." then acc
    else if s = ".." then acc.dropLast
    else acc ++ [s]) []

/-- Render an absolute path from its segments. -/
def renderAbs (l : List String) : String :=
  match l with
  | [] => "/"
  | _ => l.foldl (fun acc s => acc ++ "/" ++ s) ""

/-- `path.join(base, file)` for an absolute, already-normalised `base`:
concatenate and normalise. -/
def pathJoinAbs (base file : String) : String :=
  renderAbs (normSegs (segs base ++ segs file))

/-- `String.prototype.startsWith`: prefix test on the character sequences. -/
def strStartsWith (s q : String) : Bool := q.data.isPrefixOf s.data

/-- `safeJoin` (server.js lines 79-83, part_000 lines 141-145):
`p = path.join(base, file); if (!p.startsWith(base)) throw; return p` —
`none` models the throw. -/
def safeJoin (base file : String) : Option String :=
  let p := pathJoinAbs base file
  if strStartsWith p base then some p else none

/-- Does a storage key contain a `..` segment? -/
def hasDotDotSeg (key : String) : Bool := (rawSegs key).contains ("..")

/-- Is `p` inside the root directory `base` (its segments extend the root's)? -/
def insideRoot (base p : String) : Bool := (segs base).isPrefixOf (segs p)

/-! ### Index well-formedness -/

/-- A `byToken` binding is consistent when its entry records the token it is
filed under and `byFile` holds the same entry under the entry's filename. -/
def tokenPairOkB (m : Metadata) (p : String × Entry) : Bool :=
  decide (p.2.token = some p.1) &&
  (match p.2.filename with
   | some f => decide (alookup m.byFile f = some p.2)
   | none => false)

/-- A `byFile` binding is consistent when its entry records the filename it is
filed under and `byToken` holds the same entry under the entry's token. -/
def filePairOkB (m : Metadata) (p : String × Entry) : Bool :=
  decide (p.2.filename = some p.1) &&
  (match p.2.token with
   | some t => decide (alookup m.byToken t = some p.2)
   | none => false)

/-- The spec's index-consistency invariant: every entry reachable from one
index is reachable from the other, with identical content. -/
def consistentB (m : Metadata) : Bool :=
  m.byToken.all (tokenPairOkB m) && m.byFile.all (filePairOkB m)

/-- Well-formed metadata: unique keys in both indices and mutual consistency. -/
def WF (m : Metadata) : Prop :=
  (keys m.byToken).Nodup ∧ (keys m.byFile).Nodup ∧ consistentB m = true

instance (m : Metadata) : Decidable (WF m) := by
  unfold WF; infer_instance

/-! ### Interleaving model of concurrent uploads (S3 variant)

The S3 upload handler `await`s between its metadata accesses: it reads
`metadata.json`, `await`s the PDF `PutObject`, writes the document (first
`writeMetadata` plus the mirror put), `await`s the QR generation and upload,
and writes again with `qrS3Key` set.  Each task step below is one of these
synchronous blocks; the event loop may interleave whole blocks of different
requests at the `await` points.  Coalescing a synchronous block into one step
only removes interleavings, so any behaviour of this model is a behaviour of
the code. -/

/-- An in-flight S3 upload request: its fresh token, unique filename, the
entry it will store, its QR key, a program counter (0 = before `readMetadata`,
1 = after the read, 2 = after the first write, 3 = done), and its task-local
`meta` document. -/
structure CreateTask where
  tok : String
  fn : String
  entry : Entry
  qrKey : String
  pc : Nat := 0
  snap : Metadata := {}
deriving DecidableEq

/-- One synchronous block of the S3 upload handler, acting on the shared
state (local `metadata.json` plus S3 mirror). -/
def taskStep (g : SysState) (t : CreateTask) : SysState × CreateTask :=
  match t.pc with
  | 0 => (g, { t with snap := g.meta, pc := 1 })
  | 1 =>
    let m := insertBoth t.snap t.tok t.fn t.entry
    (⟨m, aset g.mirror t.tok t.entry⟩, { t with snap := m, pc := 2 })
  | 2 =>
    let e := { t.entry with qrS3Key := some t.qrKey }
    let m := insertBoth t.snap t.tok t.fn e
    (⟨m, aset g.mirror t.tok e⟩, { t with snap := m, pc := 3 })
  | _ => (g, t)

/-- Run a schedule: at each tick the named task executes its next block. -/
def runSched : List Nat → SysState → List CreateTask → SysState × List CreateTask
  | [], g, ts => (g, ts)
  | i :: rest, g, ts =>
    match ts[i]? with
    | none => runSched rest g ts
    | some t =>
      let r := taskStep g t
      runSched rest r.1 (ts.set i r.2)

/-- The local variant's upload metadata mutation is one synchronous block
(server.js lines 181-204 contain no `await`), so under Node's run-to-completion
semantics K concurrent uploads execute their read-modify-write blocks in some
sequential order: a fold of `createLocal` over the requests in that order. -/
def runLocalCreates (m : Metadata) (ttlDays : Int) (rs : List (UploadReq × Int)) :
    Metadata :=
  rs.foldl (fun acc rc => createLocal acc rc.1 ttlDays rc.2) m

/-! ### Association-list lemmas -/

theorem alookup_eq_none (l : Index) (k : String) :
    alookup l k = none ↔ ¬ k ∈ keys l := by
  induction l with
  | nil => simp [alookup, keys]
  | cons a l ih =>
    simp only [alookup, keys, List.map_cons, List.mem_cons]
    by_cases h : a.1 = k
    · simp [h]
    · simp [h, ih, keys, Ne.symm h]

theorem mem_of_alookup {l : Index} {k : String} {v : Entry}
    (h : alookup l k = some v) : (k, v) ∈ l := by
  induction l with
  | nil => simp [alookup] at h
  | cons a l ih =>
    simp only [alookup] at h
    by_cases h1 : a.1 = k
    · rw [if_pos h1] at h
      injection h with h2
      exact List.mem_cons.2 (Or.inl (by rw [← h1, ← h2]))
    · rw [if_neg h1] at h
      exact List.mem_cons_of_mem _ (ih h)

theorem alookup_eq_some_of_mem {l : Index} {p : String × Entry}
    (hn : (keys l).Nodup) (hp : p ∈ l) : alookup l p.1 = some p.2 := by
  induction l with
  | nil => simp at hp
  | cons a l ih =>
    simp only [keys, List.map_cons, List.nodup_cons] at hn
    rcases List.mem_cons.1 hp with h | h
    · subst h; simp [alookup]
    · have h1 : a.1 ≠ p.1 := by
        intro hk
        exact hn.1 (hk ▸ List.mem_map_of_mem Prod.fst h)
      simp only [alookup, if_neg h1]
      exact ih hn.2 h

theorem alookup_aerase_self (l : Index) (k : String) :
    alookup (aerase l k) k = none := by
  induction l with
  | nil => rfl
  | cons a l ih =>
    by_cases h : a.1 = k
    · simpa [aerase, List.filter_cons, h] using ih
    · simpa [aerase, List.filter_cons, h, alookup] using ih

theorem alookup_aerase_ne (l : Index) (k k' : String) (h : k' ≠ k) :
    alookup (aerase l k) k' = alookup l k' := by
  have hkk : ¬ k = k' := fun hh => h hh.symm
  induction l with
  | nil => rfl
  | cons a l ih =>
    by_cases h1 : a.1 = k
    · simpa [aerase, List.filter_cons, alookup, h1, hkk] using ih
    · by_cases h2 : a.1 = k'
      · simp [aerase, List.filter_cons, alookup, h1, h2, h]
      · simpa [aerase, List.filter_cons, alookup, h1, h2] using ih

theorem mem_aerase {l : Index} {k : String} {p : String × Entry} :
    p ∈ aerase l k ↔ p ∈ l ∧ p.1 ≠ k := by
  simp [aerase, List.mem_filter]

theorem aerase_of_not_mem {l : Index} {k : String} (h : ¬ k ∈ keys l) :
    aerase l k = l := by
  apply List.filter_eq_self.2
  intro p hp
  simp only [ne_eq, decide_eq_true_eq]
  intro hk
  exact h (hk ▸ List.mem_map_of_mem Prod.fst hp)

theorem nodup_keys_aerase {l : Index} (k : String) (hn : (keys l).Nodup) :
    (keys (aerase l k)).Nodup :=
  ((List.filter_sublist l).map Prod.fst).nodup hn

theorem alookup_aset_self (l : Index) (k : String) (v : Entry) :
    alookup (aset l k v) k = some v := by
  unfold aset
  by_cases h : k ∈ keys l
  · simp only [h, if_pos]
    induction l with
    | nil => simp [keys] at h
    | cons a l ih =>
      by_cases h1 : a.1 = k
      · simp [alookup, h1]
      · simp only [keys, List.map_cons, List.mem_cons] at h
        rcases h with h | h
        · exact absurd h.symm h1
        · simpa [alookup, h1] using ih h
  · simp only [h, if_neg, not_false_iff]
    induction l with
    | nil => simp [alookup]
    | cons a l ih =>
      simp only [keys, List.map_cons, List.mem_cons, not_or] at h
      have h1 : a.1 ≠ k := fun hh => h.1 hh.symm
      simpa [alookup, h1] using ih h.2

theorem alookup_map_replace (l : Index) (k k' : String) (v : Entry)
    (h : k' ≠ k) :
    alookup (l.map (fun p => if p.1 = k then (k, v) else p)) k' = alookup l k' := by
  induction l with
  | nil => rfl
  | cons a l ih =>
    by_cases h1 : a.1 = k
    · have h2 : ¬ k = k' := fun hh => h hh.symm
      have h3 : ¬ a.1 = k' := h1 ▸ h2
      simpa [alookup, List.map_cons, h1, h2, h3] using ih
    · by_cases h2 : a.1 = k'
      · simp [alookup, List.map_cons, h1, h2, h]
      · simpa [alookup, List.map_cons, h1, h2] using ih

theorem alookup_append_single (l : Index) (k k' : String) (v : Entry)
    (h : k' ≠ k) : alookup (l ++ [(k, v)]) k' = alookup l k' := by
  have hkk : ¬ k = k' := fun hh => h hh.symm
  induction l with
  | nil => simp [alookup, hkk]
  | cons a l ih =>
    by_cases h1 : a.1 = k'
    · simp [alookup, h1]
    · simpa [alookup, h1] using ih

theorem alookup_aset_ne (l : Index) (k k' : String) (v : Entry) (h : k' ≠ k) :
    alookup (aset l k v) k' = alookup l k' := by
  unfold aset
  by_cases hm : k ∈ keys l
  · simpa [hm] using alookup_map_replace l k k' v h
  · simpa [hm] using alookup_append_single l k k' v h

theorem keys_aset_of_mem {l : Index} {k : String} (v : Entry)
    (h : k ∈ keys l) : keys (aset l k v) = keys l := by
  rw [aset, if_pos h]
  unfold keys
  rw [List.map_map]
  apply List.map_congr_left
  intro p _
  by_cases h1 : p.1 = k
  · simp [Function.comp, h1]
  · simp [Function.comp, h1]

theorem aset_of_not_mem {l : Index} {k : String} (v : Entry)
    (h : ¬ k ∈ keys l) : aset l k v = l ++ [(k, v)] := by
  unfold aset
  simp [h]

theorem nodup_keys_aset {l : Index} (k : String) (v : Entry)
    (hn : (keys l).Nodup) : (keys (aset l k v)).Nodup := by
  by_cases h : k ∈ keys l
  · rw [keys_aset_of_mem v h]; exact hn
  · rw [aset_of_not_mem v h]
    simp only [keys, List.map_append, List.map_cons, List.map_nil]
    rw [List.nodup_append]
    exact ⟨hn, List.nodup_singleton _, by simpa [keys] using h⟩

theorem mem_aset {l : Index} {k : String} {v : Entry} {p : String × Entry} :
    p ∈ aset l k v ↔ p = (k, v) ∨ (p ∈ l ∧ p.1 ≠ k) := by
  by_cases h : k ∈ keys l
  · unfold aset
    simp only [h, if_pos, List.mem_map]
    constructor
    · rintro ⟨q, hq, hqe⟩
      by_cases h1 : q.1 = k
      · left; rw [← hqe]; simp [h1]
      · right
        rw [← hqe]
        simp only [h1, if_neg, not_false_iff]
        exact ⟨hq, h1⟩
    · rintro (h1 | ⟨h1, h2⟩)
      · obtain ⟨q, hq, hqk⟩ : ∃ q ∈ l, q.1 = k := by
          simp only [keys, List.mem_map] at h
          obtain ⟨q, hq, hqk⟩ := h
          exact ⟨q, hq, hqk⟩
        exact ⟨q, hq, by simp [hqk, h1.symm]⟩
      · exact ⟨p, h1, by simp [h2]⟩
  · rw [aset_of_not_mem v h]
    simp only [List.mem_append, List.mem_singleton]
    constructor
    · rintro (h1 | h1)
      · refine Or.inr ⟨h1, fun hk => h ?_⟩
        exact hk ▸ List.mem_map_of_mem Prod.fst h1
      · exact Or.inl h1
    · rintro (h1 | ⟨h1, _⟩)
      · exact Or.inr h1
      · exact Or.inl h1

theorem alookup_filter_none {l : Index} {k : String} (q : String × Entry → Bool)
    (h : alookup l k = none) : alookup (l.filter q) k = none := by
  induction l with
  | nil => rfl
  | cons a l ih =>
    simp only [alookup] at h
    by_cases h1 : a.1 = k
    · simp [h1] at h
    · simp only [h1, if_false] at h
      by_cases h2 : q a
      · simpa [List.filter_cons, h2, alookup, h1] using ih h
      · simpa [List.filter_cons, h2] using ih h

theorem alookup_filter {l : Index} (q : String × Entry → Bool) (k : String)
    (hn : (keys l).Nodup) :
    alookup (l.filter q) k =
      match alookup l k with
      | some v => if q (k, v) then some v else none
      | none => none := by
  induction l with
  | nil => rfl
  | cons a l ih =>
    simp only [keys, List.map_cons, List.nodup_cons] at hn
    by_cases h1 : a.1 = k
    · have hkl : alookup l k = none := by
        rw [alookup_eq_none]
        exact h1 ▸ hn.1
      by_cases h2 : q a
      · have ha : (k, a.2) = a := by rw [← h1]
        simp [List.filter_cons, h2, alookup, h1, ha, h2]
      · have ha : (k, a.2) = a := by rw [← h1]
        simp only [List.filter_cons, h2, if_neg, not_false_iff, Bool.false_eq_true]
        rw [alookup_filter_none q hkl]
        simp [alookup, h1, ha, h2]
    · by_cases h2 : q a
      · simpa [List.filter_cons, h2, alookup, h1] using ih hn.2
      · simpa [List.filter_cons, h2, alookup, h1] using ih hn.2

/-! ### Purge characterisation -/

/-- Keys of the snapshot entries the purge loop removes. -/
def expiredKeys (now : Int) (es : Index) : List String :=
  (es.filter (fun p => isExpired p.2 now)).map Prod.fst

/-- Filenames of the snapshot entries the purge loop removes. -/
def expiredFiles (now : Int) (es : Index) : List String :=
  (es.filter (fun p => isExpired p.2 now)).filterMap (fun p => p.2.filename)

theorem mem_expiredKeys {now : Int} {es : Index} {x : String} :
    x ∈ expiredKeys now es ↔ ∃ q ∈ es, isExpired q.2 now = true ∧ q.1 = x := by
  simp only [expiredKeys, List.mem_map, List.mem_filter]
  constructor
  · rintro ⟨q, ⟨hq, he⟩, hx⟩
    exact ⟨q, hq, he, hx⟩
  · rintro ⟨q, hq, he, hx⟩
    exact ⟨q, ⟨hq, he⟩, hx⟩

theorem mem_expiredFiles {now : Int} {es : Index} {x : String} :
    x ∈ expiredFiles now es ↔
      ∃ q ∈ es, isExpired q.2 now = true ∧ q.2.filename = some x := by
  simp only [expiredFiles, List.mem_filterMap, List.mem_filter]
  constructor
  · rintro ⟨q, ⟨hq, he⟩, hx⟩
    exact ⟨q, hq, he, hx⟩
  · rintro ⟨q, hq, he, hx⟩
    exact ⟨q, ⟨hq, he⟩, hx⟩

theorem eq_of_mem_keys_nodup {l : Index} {p q : String × Entry}
    (hn : (keys l).Nodup) (hp : p ∈ l) (hq : q ∈ l) (hk : p.1 = q.1) : p = q := by
  induction l with
  | nil => simp at hp
  | cons a l ih =>
    have hn2 : ¬ a.1 ∈ List.map Prod.fst l ∧ (List.map Prod.fst l).Nodup := by
      rw [show keys (a :: l) = a.1 :: List.map Prod.fst l from rfl] at hn
      exact ⟨(List.nodup_cons.1 hn).1, (List.nodup_cons.1 hn).2⟩
    have hn := hn2
    rcases List.mem_cons.1 hp with h1 | h1 <;> rcases List.mem_cons.1 hq with h2 | h2
    · rw [h1, h2]
    · exfalso
      apply hn.1
      rw [h1] at hk
      rw [hk]
      exact List.mem_map_of_mem Prod.fst h2
    · exfalso
      apply hn.1
      rw [h2] at hk
      rw [← hk]
      exact List.mem_map_of_mem Prod.fst h1
    · exact ih hn.2 h1 h2

/-- The whole purge fold, characterised over the snapshot `es`. -/
theorem purge_foldl (now : Int) (es : Index) : ∀ (m : Metadata) (c : Nat),
    (es.foldl (purgeStep now) (m, c)).2 =
      c + (es.filter (fun p => isExpired p.2 now)).length ∧
    (es.foldl (purgeStep now) (m, c)).1.byToken =
      m.byToken.filter (fun p => decide (¬ p.1 ∈ expiredKeys now es)) ∧
    (es.foldl (purgeStep now) (m, c)).1.byFile =
      m.byFile.filter (fun p => decide (¬ p.1 ∈ expiredFiles now es)) := by
  induction es with
  | nil =>
    intro m c
    simp [expiredKeys, expiredFiles, List.filter_true]
  | cons e es ih =>
    intro m c
    by_cases hexp : isExpired e.2 now
    · have hstep : purgeStep now (m, c) e = (removeMeta m e.2 e.1, c + 1) := by
        simp [purgeStep, hexp]
      have hek : expiredKeys now (e :: es) = e.1 :: expiredKeys now es := by
        simp [expiredKeys, List.filter_cons, hexp]
      obtain ⟨ih1, ih2, ih3⟩ := ih (removeMeta m e.2 e.1) (c + 1)
      refine ⟨?_, ?_, ?_⟩
      · rw [List.foldl_cons, hstep, ih1, List.filter_cons]
        simp [hexp]
        omega
      · rw [List.foldl_cons, hstep, ih2, hek]
        have : (removeMeta m e.2 e.1).byToken = aerase m.byToken e.1 := rfl
        rw [this, aerase, List.filter_filter]
        apply List.filter_congr
        intro p _
        simp only [List.mem_cons, not_or, ne_eq]
        rw [Bool.decide_and]
        exact Bool.and_comm _ _
      · rw [List.foldl_cons, hstep, ih3]
        rcases hf : e.2.filename with _ | f
        · have hb : (removeMeta m e.2 e.1).byFile = m.byFile := by
            simp [removeMeta, hf]
          have hef : expiredFiles now (e :: es) = expiredFiles now es := by
            simp [expiredFiles, List.filter_cons, hexp, List.filterMap_cons, hf]
          rw [hb, hef]
        · have hb : (removeMeta m e.2 e.1).byFile = aerase m.byFile f := by
            simp [removeMeta, hf]
          have hef : expiredFiles now (e :: es) = f :: expiredFiles now es := by
            simp [expiredFiles, List.filter_cons, hexp, List.filterMap_cons, hf]
          rw [hb, hef, aerase, List.filter_filter]
          apply List.filter_congr
          intro p _
          simp only [List.mem_cons, not_or, ne_eq]
          rw [Bool.decide_and]
          exact Bool.and_comm _ _
    · have hstep : purgeStep now (m, c) e = (m, c) := by
        simp [purgeStep, hexp]
      have hek : expiredKeys now (e :: es) = expiredKeys now es := by
        simp [expiredKeys, List.filter_cons, hexp]
      have hef : expiredFiles now (e :: es) = expiredFiles now es := by
        simp [expiredFiles, List.filter_cons, hexp]
      obtain ⟨ih1, ih2, ih3⟩ := ih m c
      refine ⟨?_, ?_, ?_⟩
      · rw [List.foldl_cons, hstep, ih1, List.filter_cons]
        simp [hexp]
      · rw [List.foldl_cons, hstep, ih2, hek]
      · rw [List.foldl_cons, hstep, ih3, hef]

/-- Unpacking `consistentB` on a `byToken` binding. -/
theorem tokenPair_of_consistent {m : Metadata} {p : String × Entry}
    (hc : consistentB m = true) (hp : p ∈ m.byToken) :
    p.2.token = some p.1 ∧
      ∃ f, p.2.filename = some f ∧ alookup m.byFile f = some p.2 := by
  simp only [consistentB, Bool.and_eq_true, List.all_eq_true] at hc
  have h := hc.1 p hp
  simp only [tokenPairOkB, Bool.and_eq_true, decide_eq_true_eq] at h
  refine ⟨h.1, ?_⟩
  rcases hf : p.2.filename with _ | f
  · rw [hf] at h
    simp at h
  · rw [hf] at h
    refine ⟨f, rfl, ?_⟩
    simpa using h.2

/-- Unpacking `consistentB` on a `byFile` binding. -/
theorem filePair_of_consistent {m : Metadata} {p : String × Entry}
    (hc : consistentB m = true) (hp : p ∈ m.byFile) :
    p.2.filename = some p.1 ∧
      ∃ t, p.2.token = some t ∧ alookup m.byToken t = some p.2 := by
  simp only [consistentB, Bool.and_eq_true, List.all_eq_true] at hc
  have h := hc.2 p hp
  simp only [filePairOkB, Bool.and_eq_true, decide_eq_true_eq] at h
  refine ⟨h.1, ?_⟩
  rcases ht : p.2.token with _ | t
  · rw [ht] at h
    simp at h
  · rw [ht] at h
    refine ⟨t, rfl, ?_⟩
    simpa using h.2

/-- Under well-formedness, the purge removes exactly the expired entries from
both indices, returns their number, and writes once. -/
theorem purge_characterisation {m : Metadata} (now : Int) (hwf : WF m) :
    (purgeExpired m now).1.byToken =
      m.byToken.filter (fun p => !isExpired p.2 now) ∧
    (purgeExpired m now).1.byFile =
      m.byFile.filter (fun p => !isExpired p.2 now) ∧
    (purgeExpired m now).2.1 =
      (m.byToken.filter (fun p => isExpired p.2 now)).length ∧
    (purgeExpired m now).2.2 = [(purgeExpired m now).1] := by
  obtain ⟨hnT, hnF, hc⟩ := hwf
  obtain ⟨h1, h2, h3⟩ := purge_foldl now m.byToken m 0
  refine ⟨?_, ?_, by simpa [purgeExpired] using h1, rfl⟩
  · show (m.byToken.foldl (purgeStep now) (m, 0)).1.byToken = _
    rw [h2]
    apply List.filter_congr
    intro p hp
    rcases he : isExpired p.2 now with _ | _
    · simp only [Bool.not_false, decide_eq_true_eq]
      rw [mem_expiredKeys]
      push_neg
      intro q hq hqe
      intro hk
      exact absurd (eq_of_mem_keys_nodup hnT hq hp hk ▸ hqe) (by simp [he])
    · simp only [Bool.not_true, decide_eq_false_iff_not]
      intro hmem
      rw [mem_expiredKeys] at hmem
      exact hmem ⟨p, hp, he, rfl⟩
  · show (m.byToken.foldl (purgeStep now) (m, 0)).1.byFile = _
    rw [h3]
    apply List.filter_congr
    intro p hp
    obtain ⟨hfn, t, htok, hlt⟩ := filePair_of_consistent hc hp
    rcases he : isExpired p.2 now with _ | _
    · simp only [Bool.not_false, decide_eq_true_eq]
      rw [mem_expiredFiles]
      push_neg
      intro q hq hqe
      intro hf
      obtain ⟨_, f, hqf, hql⟩ := tokenPair_of_consistent hc hq
      rw [hqf] at hf
      injection hf with hf
      rw [hf] at hql
      have hpl : alookup m.byFile p.1 = some p.2 := alookup_eq_some_of_mem hnF hp
      rw [hpl] at hql
      injection hql with hql
      rw [hql] at he
      simp [he] at hqe
    · simp only [Bool.not_true, decide_eq_false_iff_not]
      intro hmem
      have : p.1 ∈ expiredFiles now m.byToken := by
        rw [mem_expiredFiles]
        exact ⟨(t, p.2), mem_of_alookup hlt, he, hfn⟩
      exact hmem this

/-! ### Preservation of index consistency -/

theorem mem_keys_of_alookup {l : Index} {k : String} {v : Entry}
    (h : alookup l k = some v) : k ∈ keys l :=
  List.mem_map_of_mem Prod.fst (mem_of_alookup h)

theorem consistentB_iff (m : Metadata) : consistentB m = true ↔
    (∀ p ∈ m.byToken, p.2.token = some p.1 ∧
      ∃ f, p.2.filename = some f ∧ alookup m.byFile f = some p.2) ∧
    (∀ p ∈ m.byFile, p.2.filename = some p.1 ∧
      ∃ t, p.2.token = some t ∧ alookup m.byToken t = some p.2) := by
  constructor
  · intro hc
    exact ⟨fun p hp => tokenPair_of_consistent hc hp,
           fun p hp => filePair_of_consistent hc hp⟩
  · rintro ⟨h1, h2⟩
    simp only [consistentB, Bool.and_eq_true, List.all_eq_true]
    constructor
    · intro p hp
      obtain ⟨ht, f, hf, hl⟩ := h1 p hp
      simp only [tokenPairOkB, Bool.and_eq_true, decide_eq_true_eq]
      refine ⟨ht, ?_⟩
      rw [hf]
      simpa using hl
    · intro p hp
      obtain ⟨hf, t, ht, hl⟩ := h2 p hp
      simp only [filePairOkB, Bool.and_eq_true, decide_eq_true_eq]
      refine ⟨hf, ?_⟩
      rw [ht]
      simpa using hl

/-- Inserting a fresh token/filename pair with an entry that records both
keys (as the S3 upload's first write does) preserves well-formedness. -/
theorem WF_insertBoth_fresh {m : Metadata} {tok fn : String} {e : Entry}
    (hwf : WF m) (htok : e.token = some tok) (hfn : e.filename = some fn)
    (hT : ¬ tok ∈ keys m.byToken) (hF : ¬ fn ∈ keys m.byFile) :
    WF (insertBoth m tok fn e) := by
  obtain ⟨hnT, hnF, hc⟩ := hwf
  rw [consistentB_iff] at hc
  refine ⟨nodup_keys_aset _ _ hnT, nodup_keys_aset _ _ hnF, ?_⟩
  rw [consistentB_iff]
  constructor
  · intro p hp
    rcases mem_aset.1 hp with h | ⟨h, hne⟩
    · subst h
      exact ⟨htok, fn, hfn, alookup_aset_self _ _ _⟩
    · obtain ⟨ht, f, hf, hl⟩ := hc.1 p h
      have hffn : f ≠ fn := fun hh => hF (hh ▸ mem_keys_of_alookup hl)
      exact ⟨ht, f, hf, by rw [show (insertBoth m tok fn e).byFile =
        aset m.byFile fn e from rfl, alookup_aset_ne _ _ _ _ hffn]; exact hl⟩
  · intro p hp
    rcases mem_aset.1 hp with h | ⟨h, hne⟩
    · subst h
      exact ⟨hfn, tok, htok, alookup_aset_self _ _ _⟩
    · obtain ⟨hf, t, ht, hl⟩ := hc.2 p h
      have httok : t ≠ tok := fun hh => hT (hh ▸ mem_keys_of_alookup hl)
      exact ⟨hf, t, ht, by rw [show (insertBoth m tok fn e).byToken =
        aset m.byToken tok e from rfl, alookup_aset_ne _ _ _ _ httok]; exact hl⟩

/-- Re-inserting an updated entry at an existing token/filename pair (as the
S3 upload's second write, adding `qrS3Key`, does) preserves well-formedness. -/
theorem WF_insertBoth_update {m : Metadata} {tok fn : String} {e e' : Entry}
    (hwf : WF m) (hold : alookup m.byToken tok = some e)
    (hfnold : e.filename = some fn)
    (htok' : e'.token = some tok) (hfn' : e'.filename = some fn) :
    WF (insertBoth m tok fn e') := by
  obtain ⟨hnT, hnF, hc⟩ := hwf
  rw [consistentB_iff] at hc
  obtain ⟨hetok0, f0, hf00, hlf00⟩ := hc.1 (tok, e) (mem_of_alookup hold)
  have hetok : e.token = some tok := hetok0
  have hf0e : e.filename = some f0 := hf00
  rw [hfnold] at hf0e
  injection hf0e with hff
  have hlf0 : alookup m.byFile fn = some e := by
    rw [hff]
    exact hlf00
  have hTm : tok ∈ keys m.byToken := mem_keys_of_alookup hold
  have hFm : fn ∈ keys m.byFile := mem_keys_of_alookup hlf0
  refine ⟨nodup_keys_aset _ _ hnT, nodup_keys_aset _ _ hnF, ?_⟩
  rw [consistentB_iff]
  constructor
  · intro p hp
    rcases mem_aset.1 hp with h | ⟨h, hne⟩
    · subst h
      exact ⟨htok', fn, hfn', alookup_aset_self _ _ _⟩
    · obtain ⟨ht, f, hf, hl⟩ := hc.1 p h
      have hffn : f ≠ fn := by
        intro hh
        rw [hh, hlf0] at hl
        injection hl with hl
        rw [← hl] at ht
        rw [hetok] at ht
        injection ht with ht
        exact hne ht.symm
      exact ⟨ht, f, hf, by rw [show (insertBoth m tok fn e').byFile =
        aset m.byFile fn e' from rfl, alookup_aset_ne _ _ _ _ hffn]; exact hl⟩
  · intro p hp
    rcases mem_aset.1 hp with h | ⟨h, hne⟩
    · subst h
      exact ⟨hfn', tok, htok', alookup_aset_self _ _ _⟩
    · obtain ⟨hf, t, ht, hl⟩ := hc.2 p h
      have httok : t ≠ tok := by
        intro hh
        rw [hh, hold] at hl
        injection hl with hl
        rw [← hl] at hf
        rw [hfnold] at hf
        injection hf with hf
        exact hne hf.symm
      exact ⟨hf, t, ht, by rw [show (insertBoth m tok fn e').byToken =
        aset m.byToken tok e' from rfl, alookup_aset_ne _ _ _ _ httok]; exact hl⟩

/-- Removing a token that is present in the local index removes the matching
binding from both indices and preserves well-formedness. -/
theorem WF_removeMeta {m : Metadata} {tok : String} {e : Entry}
    (hwf : WF m) (hold : alookup m.byToken tok = some e) :
    WF (removeMeta m e tok) := by
  obtain ⟨hnT, hnF, hc⟩ := hwf
  rw [consistentB_iff] at hc
  obtain ⟨hetok0, f0, hf00, hlf00⟩ := hc.1 (tok, e) (mem_of_alookup hold)
  have hetok : e.token = some tok := hetok0
  have hf0 : e.filename = some f0 := hf00
  have hlf0 : alookup m.byFile f0 = some e := hlf00
  have hbF : (removeMeta m e tok).byFile = aerase m.byFile f0 := by
    simp [removeMeta, hf0]
  have hbT : (removeMeta m e tok).byToken = aerase m.byToken tok := rfl
  refine ⟨?_, ?_, ?_⟩
  · rw [hbT]; exact nodup_keys_aerase _ hnT
  · rw [hbF]; exact nodup_keys_aerase _ hnF
  · rw [consistentB_iff]
    constructor
    · intro p hp
      rw [hbT] at hp
      obtain ⟨h, hne⟩ := mem_aerase.1 hp
      obtain ⟨ht, f, hf, hl⟩ := hc.1 p h
      have hff0 : f ≠ f0 := by
        intro hh
        rw [hh, hlf0] at hl
        injection hl with hl
        rw [← hl] at ht
        rw [hetok] at ht
        injection ht with ht
        exact hne ht.symm
      exact ⟨ht, f, hf, by rw [hbF, alookup_aerase_ne _ _ _ hff0]; exact hl⟩
    · intro p hp
      rw [hbF] at hp
      obtain ⟨h, hne⟩ := mem_aerase.1 hp
      obtain ⟨hf, t, ht, hl⟩ := hc.2 p h
      have httok : t ≠ tok := by
        intro hh
        rw [hh, hold] at hl
        injection hl with hl
        rw [← hl] at hf
        rw [hf0] at hf
        injection hf with hf
        exact hne hf.symm
      exact ⟨hf, t, ht, by rw [hbT, alookup_aerase_ne _ _ _ httok]; exact hl⟩

/-- The purge loop preserves well-formedness. -/
theorem WF_purge {m : Metadata} (now : Int) (hwf : WF m) :
    WF (purgeExpired m now).1 := by
  obtain ⟨hT, hF, hTF⟩ := purge_characterisation now hwf
  obtain ⟨hnT, hnF, hc⟩ := hwf
  rw [consistentB_iff] at hc
  refine ⟨?_, ?_, ?_⟩
  · rw [hT]; exact ((List.filter_sublist _).map Prod.fst).nodup hnT
  · rw [hF]; exact ((List.filter_sublist _).map Prod.fst).nodup hnF
  · rw [consistentB_iff]
    constructor
    · intro p hp
      rw [hT] at hp
      obtain ⟨h, hlive⟩ := List.mem_filter.1 hp
      obtain ⟨ht, f, hf, hl⟩ := hc.1 p h
      refine ⟨ht, f, hf, ?_⟩
      rw [hF, alookup_filter _ _ hnF, hl]
      simpa using hlive
    · intro p hp
      rw [hF] at hp
      obtain ⟨h, hlive⟩ := List.mem_filter.1 hp
      obtain ⟨hf, t, ht, hl⟩ := hc.2 p h
      refine ⟨hf, t, ht, ?_⟩
      rw [hT, alookup_filter _ _ hnT, hl]
      simpa using hlive

/-! ### Concrete examples used by witnesses and counterexamples -/

/-- An upload request used in concrete checks. -/
def exReq : UploadReq :=
  { tok := "tokA", fn := "fileA", origName := "doc.pdf", sz := 2,
    mimeTy := "application/pdf" }

/-- An entry whose expiry parsed to 10 ms. -/
def exEntryExp : Entry :=
  { token := some ("t1"), filename := some ("f1"), createdAt := 0,
    expiresAt := some (some 10) }

/-- An entry with `expiresAt: null`. -/
def exEntryLive : Entry :=
  { token := some ("t2"), filename := some ("f2"), createdAt := 5,
    expiresAt := none }

/-- An entry whose non-null `expiresAt` does not parse (`Date.parse` NaN). -/
def exEntryNaN : Entry :=
  { token := some ("t3"), filename := some ("f3"), createdAt := 7,
    expiresAt := some none }

/-- A fresh S3-style entry for insertion checks. -/
def exEntryNew : Entry :=
  mkEntryS3 ("t9") ("f9") ("n.pdf") ("application/pdf") ("b") ("uploads/f9") 3 365 50

/-- A two-entry well-formed store: one expired, one live. -/
def exMeta : Metadata :=
  { byFile := [("f1", exEntryExp), ("f2", exEntryLive)],
    byToken := [("t1", exEntryExp), ("t2", exEntryLive)] }

/-- A store holding only the entry with unparseable expiry. -/
def exMetaNaN : Metadata :=
  { byFile := [("f3", exEntryNaN)], byToken := [("t3", exEntryNaN)] }

/-- A system state over `exMeta` with no remote mirror entries. -/
def exState : SysState := { meta := exMeta, mirror := [] }

/-- Entry of the first concurrent upload. -/
def exEntryA : Entry :=
  mkEntryS3 ("tA") ("fA") ("a.pdf") ("application/pdf") ("b") ("uploads/fA") 1 365 0

/-- Entry of the second concurrent upload. -/
def exEntryB : Entry :=
  mkEntryS3 ("tB") ("fB") ("b.pdf") ("application/pdf") ("b") ("uploads/fB") 1 365 0

/-- First concurrent upload task. -/
def exTaskA : CreateTask := { tok := "tA", fn := "fA", entry := exEntryA, qrKey := "qA" }

/-- Second concurrent upload task. -/
def exTaskB : CreateTask := { tok := "tB", fn := "fB", entry := exEntryB, qrKey := "qB" }

/-- Tokens other than `tk` leave the `byToken` binding of `tk` unchanged
through a sequence of local creates. -/
theorem runLocalCreates_lookup_other (ttlDays : Int) (rs : List (UploadReq × Int)) :
    ∀ (g : Metadata) (tk : String), (∀ rc ∈ rs, rc.1.tok ≠ tk) →
    alookup (runLocalCreates g ttlDays rs).byToken tk = alookup g.byToken tk := by
  induction rs with
  | nil => intro g tk _; rfl
  | cons a rs ih =>
    intro g tk h
    show alookup (runLocalCreates (createLocal g a.1 ttlDays a.2) ttlDays rs).byToken tk = _
    rw [ih _ tk (fun rc hrc => h rc (List.mem_cons_of_mem _ hrc))]
    show alookup (aset g.byToken a.1.tok _) tk = _
    exact alookup_aset_ne _ _ _ _ (h a (List.mem_cons_self _ _)).symm

/-! ### Claim theorems -/

/-- C1: Resolve returns NotFound exactly when neither the remote mirror (when
entries exist there) nor the local `byToken` index has the token; it returns
Expired — a result distinct from NotFound — when the found entry's
`expiresAt` is non-null, parses, and is strictly in the past; and it returns
the entry otherwise (including non-null unparseable `expiresAt`, which never
takes the expiry branch). -/
theorem resolve_spec (s : SysState) (tok : String) (now : Int) :
    (resolveView s tok now = ResolveResult.notFound ↔
      alookup s.mirror tok = none ∧ alookup s.meta.byToken tok = none) ∧
    (∀ e, lookupView s tok = some e →
      (∀ t, e.expiresAt = some (some t) → t < now →
        resolveView s tok now = ResolveResult.expired t) ∧
      (isExpired e now = false → resolveView s tok now = ResolveResult.found e)) ∧
    (∀ t, ResolveResult.expired t ≠ ResolveResult.notFound) := by
  refine ⟨?_, ?_, fun t h => ResolveResult.noConfusion h⟩
  · have hlk : lookupView s tok = none ↔
        alookup s.mirror tok = none ∧ alookup s.meta.byToken tok = none := by
      unfold lookupView
      rcases hm : alookup s.mirror tok with _ | e
      · simp
      · simp
    rw [← hlk]
    unfold resolveView
    rcases h : lookupView s tok with _ | e
    · simp
    · rcases he : e.expiresAt with _ | oe
      · simp [he]
      · rcases oe with _ | t
        · simp [he]
        · by_cases hlt : t < now
          · simp [he, hlt]
          · simp [he, hlt]
  · intro e hle
    constructor
    · intro t het hlt
      unfold resolveView
      simp [hle, het, hlt]
    · intro hnex
      unfold resolveView
      rcases he : e.expiresAt with _ | oe
      · simp [hle, he]
      · rcases oe with _ | t
        · simp [hle, he]
        · rw [isExpired, he] at hnex
          simp only [decide_eq_false_iff_not] at hnex
          simp [hle, he, hnex]

/-- C1 witness: on a concrete state the live entry is served. -/
theorem resolve_spec_witness :
    resolveView exState ("t2") 100 = ResolveResult.found exEntryLive :=
  ((resolve_spec exState ("t2") 100).2.1 exEntryLive (by decide)).2 (by decide)

/-- C2 counterexample: in the local variant's upload (server.js), a TTL of 0
(which is ≤ 0) still yields a non-null `expiresAt`, stored in the index, and
that `expiresAt` equals `createdAt` rather than being strictly greater. -/
theorem expiresAt_ttl_nonpositive_cex :
    (0 : Int) ≤ 0 ∧
    alookup (createLocal {} exReq 0 100).byToken ("tokA") =
      some (mkEntryLocalByToken exReq 0 100) ∧
    (mkEntryLocalByToken exReq 0 100).expiresAt ≠ none ∧
    (mkEntryLocalByToken exReq 0 100).expiresAt = some (some 100) ∧
    (mkEntryLocalByToken exReq 0 100).createdAt = 100 ∧
    ¬ ((100 : Int) < 100) := by decide

/-- C2 (amended): the S3 variant's upload computes a null `expiresAt` for
TTL ≤ 0 and `createdAt + ttl` (strictly greater than `createdAt`) for
TTL > 0, and stores that value in its entry; the local variant's upload
always stores `createdAt + ttl`, which exceeds `createdAt` only when the
TTL is positive. -/
theorem expiresAt_spec (ttl createdAt : Int) (r : UploadReq)
    (tok fn onm mt bucket sk : String) (sz : Nat) :
    (ttl ≤ 0 → computeExpiresAtS3 ttl createdAt = none) ∧
    (0 < ttl → computeExpiresAtS3 ttl createdAt = some (createdAt + ttl * dayMs) ∧
      createdAt < createdAt + ttl * dayMs) ∧
    (mkEntryS3 tok fn onm mt bucket sk sz ttl createdAt).expiresAt =
      (computeExpiresAtS3 ttl createdAt).map some ∧
    (mkEntryLocalByToken r ttl createdAt).expiresAt =
      some (some (createdAt + ttl * dayMs)) ∧
    (0 < ttl → createdAt < computeExpiresAtLocal ttl createdAt) := by
  have hday : (0 : Int) < dayMs := by norm_num [dayMs]
  refine ⟨?_, ?_, rfl, rfl, ?_⟩
  · intro h
    simp [computeExpiresAtS3, not_lt.2 h]
  · intro h
    refine ⟨by simp [computeExpiresAtS3, h], ?_⟩
    have := mul_pos h hday
    linarith
  · intro h
    have := mul_pos h hday
    unfold computeExpiresAtLocal
    linarith

/-- C2 witness: concrete TTL values on both branches. -/
theorem expiresAt_spec_witness :
    computeExpiresAtS3 0 100 = none ∧
    (computeExpiresAtS3 1 0 = some (0 + 1 * dayMs) ∧ (0 : Int) < 0 + 1 * dayMs) :=
  ⟨(expiresAt_spec 0 100 exReq ("t") ("f") ("o") ("m") ("b") ("k") 1).1 le_rfl,
   (expiresAt_spec 1 0 exReq ("t") ("f") ("o") ("m") ("b") ("k") 1).2.1 one_pos⟩

/-- C4: deleting a token with no entry (locally or in the mirror) returns
NotFound without error and leaves the state unchanged, and a second Delete of
the same token always returns NotFound. -/
theorem delete_idempotent (s : SysState) (tok : String) :
    ((alookup s.meta.byToken tok = none ∧ alookup s.mirror tok = none) →
      removeByToken s tok = (false, s)) ∧
    (removeByToken (removeByToken s tok).2 tok).1 = false := by
  constructor
  · rintro ⟨h1, h2⟩
    simp [removeByToken, h1, h2]
  · rcases h1 : alookup s.meta.byToken tok with _ | e
    · rcases h2 : alookup s.mirror tok with _ | e
      · simp [removeByToken, h1, h2]
      · simp [removeByToken, h1, h2, removeMeta, alookup_aerase_self]
    · simp [removeByToken, h1, removeMeta, alookup_aerase_self]

/-- C4 witness: an unknown token and a repeated delete on a concrete state. -/
theorem delete_idempotent_witness :
    removeByToken exState ("zzz") = (false, exState) ∧
    (removeByToken (removeByToken exState ("t1")).2 ("t1")).1 = false :=
  ⟨(delete_idempotent exState ("zzz")).1 ⟨by decide, by decide⟩,
   (delete_idempotent exState ("t1")).2⟩

/-- C7: a persisted metadata document that is absent or unreadable yields
empty `byToken` and `byFile` indices instead of a failure, and a readable
document missing either field gets the empty default for it. -/
theorem readMetadata_recovers :
    readMetadata RawMetadata.absent = { byFile := [], byToken := [] } ∧
    readMetadata RawMetadata.corrupt = { byFile := [], byToken := [] } ∧
    (∀ bf bt, readMetadata (RawMetadata.doc bf bt) =
      { byFile := bf.getD [], byToken := bt.getD [] }) :=
  ⟨rfl, rfl, fun _ _ => rfl⟩

/-- C10: an entry whose non-null `expiresAt` does not parse to a finite
timestamp never expires: Resolve serves it and the purge keeps it in
`byToken` (its expiry test is false), because the expiry branch requires a
finite parse. -/
theorem unparseable_expiry_never_expires (s : SysState) (m : Metadata)
    (tok : String) (e : Entry) (now : Int) (he : e.expiresAt = some none) :
    (lookupView s tok = some e → resolveView s tok now = ResolveResult.found e) ∧
    ((keys m.byToken).Nodup → (tok, e) ∈ m.byToken →
      (tok, e) ∈ (purgeExpired m now).1.byToken ∧ isExpired e now = false) := by
  have hnx : isExpired e now = false := by simp [isExpired, he]
  constructor
  · intro hl
    unfold resolveView
    simp [hl, he]
  · intro hn hm
    refine ⟨?_, hnx⟩
    have hchar := (purge_foldl now m.byToken m 0).2.1
    show (tok, e) ∈ (m.byToken.foldl (purgeStep now) (m, 0)).1.byToken
    rw [hchar]
    refine List.mem_filter.2 ⟨hm, ?_⟩
    simp only [decide_eq_true_eq]
    intro hmem
    rw [mem_expiredKeys] at hmem
    obtain ⟨q, hq, hqe, hqk⟩ := hmem
    have := eq_of_mem_keys_nodup hn hq hm (by simpa using hqk)
    rw [this] at hqe
    rw [show ((tok, e).2) = e from rfl] at hqe
    rw [hnx] at hqe
    exact Bool.noConfusion hqe

/-- C10 witness: the concrete entry with unparseable expiry is served and
survives a purge far in the future. -/
theorem unparseable_expiry_witness :
    resolveView { meta := exMetaNaN, mirror := [] } ("t3") 1000000 =
      ResolveResult.found exEntryNaN ∧
    ("t3", exEntryNaN) ∈ (purgeExpired exMetaNaN 1000000).1.byToken :=
  ⟨(unparseable_expiry_never_expires { meta := exMetaNaN, mirror := [] }
      exMetaNaN ("t3") exEntryNaN 1000000 rfl).1 (by decide),
   ((unparseable_expiry_never_expires { meta := exMetaNaN, mirror := [] }
      exMetaNaN ("t3") exEntryNaN 1000000 rfl).2 (by decide) (by decide)).1⟩

/-- C3: on a well-formed store (the data model's invariant: unique keys,
mutually consistent indices), the purge removes exactly the entries whose
`expiresAt` parses finite and is in the past — from both indices — returns
their number, and performs exactly one `writeMetadata`, of the final store,
after the full scan. -/
theorem purge_spec (m : Metadata) (now : Int) (hwf : WF m) :
    (purgeExpired m now).1.byToken =
      m.byToken.filter (fun p => !isExpired p.2 now) ∧
    (purgeExpired m now).1.byFile =
      m.byFile.filter (fun p => !isExpired p.2 now) ∧
    (purgeExpired m now).2.1 =
      (m.byToken.filter (fun p => isExpired p.2 now)).length ∧
    (purgeExpired m now).2.2 = [(purgeExpired m now).1] :=
  purge_characterisation now hwf

/-- C3 witness: on the concrete store with one expired and one live entry the
purge removes one entry and keeps the survivor. -/
theorem purge_spec_witness :
    WF exMeta ∧
    (purgeExpired exMeta 100).1.byToken =
      exMeta.byToken.filter (fun p => !isExpired p.2 100) ∧
    (purgeExpired exMeta 100).2.1 =
      (exMeta.byToken.filter (fun p => isExpired p.2 100)).length ∧
    (purgeExpired exMeta 100).1.byToken = [("t2", exEntryLive)] ∧
    (purgeExpired exMeta 100).2.1 = 1 :=
  ⟨by decide, (purge_spec exMeta 100 (by decide)).1,
   (purge_spec exMeta 100 (by decide)).2.2.1, by decide, by decide⟩

/-- C5 counterexample: in the local variant, one upload stores objects in the
two indices that are mutually reachable but not identical — the `byFile`
entry records the token and no filename, the `byToken` entry the filename and
no token. -/
theorem indices_identical_cex :
    alookup (createLocal {} exReq 365 100).byFile ("fileA") =
      some (mkEntryLocalByFile exReq 365 100) ∧
    alookup (createLocal {} exReq 365 100).byToken ("tokA") =
      some (mkEntryLocalByToken exReq 365 100) ∧
    mkEntryLocalByFile exReq 365 100 ≠ mkEntryLocalByToken exReq 365 100 := by
  decide

/-- C5 (amended): in the S3 variant — whose entries are identical in both
indices — well-formedness (unique keys plus mutual consistency with identical
content) is preserved by both metadata writes of Create when the token and
storage filename are fresh, by Delete resolved from the local index, and by
Purge. -/
theorem indices_consistent :
    (∀ (m : Metadata) (tok fn qrKey : String) (e : Entry),
      WF m → e.token = some tok → e.filename = some fn →
      ¬ tok ∈ keys m.byToken → ¬ fn ∈ keys m.byFile →
      WF (createS3 m tok fn e qrKey).1 ∧ WF (createS3 m tok fn e qrKey).2) ∧
    (∀ (m : Metadata) (tok : String), WF m → WF (removeByTokenLocal m tok).2) ∧
    (∀ (m : Metadata) (now : Int), WF m → WF (purgeExpired m now).1) := by
  refine ⟨?_, ?_, fun m now hwf => WF_purge now hwf⟩
  · intro m tok fn qrKey e hwf htok hfn hT hF
    have h1 : WF (insertBoth m tok fn e) :=
      WF_insertBoth_fresh hwf htok hfn hT hF
    refine ⟨h1, ?_⟩
    show WF (insertBoth (insertBoth m tok fn e) tok fn { e with qrS3Key := _ })
    exact WF_insertBoth_update h1
      (by show alookup (aset m.byToken tok e) tok = some e
          exact alookup_aset_self _ _ _)
      hfn (by simpa using htok) (by simpa using hfn)
  · intro m tok hwf
    rcases h : alookup m.byToken tok with _ | e
    · show WF (removeByTokenLocal m tok).2
      rw [removeByTokenLocal, h]
      exact hwf
    · show WF (removeByTokenLocal m tok).2
      rw [removeByTokenLocal, h]
      exact WF_removeMeta hwf h

/-- C5 witness: the preservation applied on the concrete well-formed store:
a fresh create, a delete of an existing token, and a purge. -/
theorem indices_consistent_witness :
    WF (createS3 exMeta ("t9") ("f9") exEntryNew ("q9")).2 ∧
    WF (removeByTokenLocal exMeta ("t1")).2 ∧
    WF (purgeExpired exMeta 100).1 :=
  ⟨(indices_consistent.1 exMeta ("t9") ("f9") ("q9") exEntryNew
      (by decide) (by decide) (by decide) (by decide) (by decide)).2,
   indices_consistent.2.1 exMeta ("t1") (by decide),
   indices_consistent.2.2 exMeta 100 (by decide)⟩

/-- C6 (code bug): `safeJoin` only checks that the joined path string starts
with the root string.  A key with `..` segments that escapes to a sibling
directory whose name extends the root's (`/srv/uploads` vs
`/srv/uploads-secret`) is accepted and resolves outside the root, and a key
containing `..` that resolves back inside the root is accepted rather than
rejected — both contradicting the claim. -/
theorem safeJoin_traversal_bug :
    safeJoin ("/srv/uploads") ("../uploads-secret/x.pdf") =
      some ("/srv/uploads-secret/x.pdf") ∧
    hasDotDotSeg ("../uploads-secret/x.pdf") = true ∧
    insideRoot ("/srv/uploads") ("/srv/uploads-secret/x.pdf") = false ∧
    hasDotDotSeg ("a/../b") = true ∧
    safeJoin ("/srv/uploads") ("a/../b") = some ("/srv/uploads/b") := by
  decide

/-- C8 counterexample: the local variant's `listTokens` returns the entries
of `byToken` in index order without sorting; on a store whose older entry
precedes its newer one the output is not sorted by `createdAt` descending. -/
theorem listTokens_unsorted_cex :
    listTokensLocal exMeta = [exEntryExp, exEntryLive] ∧
    exEntryExp.createdAt < exEntryLive.createdAt ∧
    ¬ List.Sorted entryGe (listTokensLocal exMeta) := by
  decide

/-- C8 (amended): the S3 variant's `listTokens` produces the merged entries
sorted by `createdAt` descending, a permutation of the merge; being a pure
function of the listed and local entries, its tie order is deterministic. -/
theorem listTokens_sorted (s3Entries : List Entry) (localBT : Index) :
    List.Sorted entryGe (listTokensS3 s3Entries localBT) ∧
    (listTokensS3 s3Entries localBT).Perm (mergeEntries s3Entries localBT) :=
  ⟨List.sorted_insertionSort entryGe _, List.perm_insertionSort entryGe _⟩

/-- C9 counterexample: in the S3 variant, whose upload `await`s the blob
upload between the metadata read and the metadata writes with no mutex,
interleaving two uploads (A reads, B reads, A writes twice, B writes twice)
completes both tasks but leaves only B's token in the persisted `byToken` —
A's entry is clobbered. -/
theorem concurrent_create_lost_update_cex :
    (runSched [0, 1, 0, 0, 1, 1] {} [exTaskA, exTaskB]).2.map (fun t => t.pc) =
      [3, 3] ∧
    alookup (runSched [0, 1, 0, 0, 1, 1] {} [exTaskA, exTaskB]).1.meta.byToken
      ("tA") = none ∧
    (alookup (runSched [0, 1, 0, 0, 1, 1] {} [exTaskA, exTaskB]).1.meta.byToken
      ("tB")).isSome = true := by
  decide

/-- C9 (amended): the local variant's upload mutates metadata in one
synchronous block, so Node's run-to-completion serializes concurrent uploads
into some sequential order; in every such order, K uploads with distinct
tokens all remain retrievable afterwards — no lost updates. -/
theorem concurrent_create_atomic (g : Metadata) (ttlDays : Int)
    (rs : List (UploadReq × Int))
    (hn : (rs.map (fun rc => rc.1.tok)).Nodup) :
    ∀ rc ∈ rs, alookup (runLocalCreates g ttlDays rs).byToken rc.1.tok =
      some (mkEntryLocalByToken rc.1 ttlDays rc.2) := by
  induction rs generalizing g with
  | nil => intro rc h; exact absurd h (List.not_mem_nil rc)
  | cons a rs ih =>
    have hn' : ¬ a.1.tok ∈ rs.map (fun rc => rc.1.tok) ∧
        (rs.map (fun rc => rc.1.tok)).Nodup := by
      rw [List.map_cons, List.nodup_cons] at hn
      exact hn
    intro rc hrc
    rcases List.mem_cons.1 hrc with h | h
    · subst h
      show alookup (runLocalCreates (createLocal g rc.1 ttlDays rc.2)
        ttlDays rs).byToken rc.1.tok = _
      rw [runLocalCreates_lookup_other ttlDays rs _ rc.1.tok
        (fun rc' hrc' hh => hn'.1 (hh ▸ List.mem_map_of_mem (fun x => x.1.tok) hrc'))]
      show alookup (aset g.byToken rc.1.tok _) rc.1.tok = _
      exact alookup_aset_self _ _ _
    · exact ih (createLocal g a.1 ttlDays a.2) hn'.2 rc h

/-- C9 witness: a single concrete create is retrievable. -/
theorem concurrent_create_atomic_witness :
    alookup (runLocalCreates {} 365 [(exReq, 50)]).byToken ("tokA") =
      some (mkEntryLocalByToken exReq 365 50) :=
  concurrent_create_atomic {} 365 [(exReq, 50)] (by decide) (exReq, 50)
    (List.mem_cons_self _ _)

end Sunat
